import Mathlib

/-!
# Verification of the PollReader poll-data component

A shallow embedding of `PollReader.py` and proofs about it.

Modelling conventions:
* Python `str` values are Lean `String`s (lists of characters); the relevant
  `str` methods (`strip`, `upper`, `lower`, `split(',')`, `isdigit`, `isalpha`,
  substring `in`) are modelled on ASCII data.
* Python `int` is `Int`, Python `float` is idealised as `ℚ` (exact rational
  arithmetic); the float literal `1e-12` is idealised as `1/10^12`.
* `int(s)` and `float(s)` are fallible conversions returning `Option`;
  a raised exception is modelled as `Except.error`.  Because an exception
  raised inside `build_data_dict` leaves the already-performed `append`s in
  place, the error value carries the data dictionary as it stands at the
  moment of the raise.
* Parsed rational values are constructed with `Rat.divInt` over integer
  arithmetic (the exact value of the decimal literal), keeping the parser
  kernel-computable.
-/

namespace PollReader

/-- Python whitespace characters (`str.strip` with no argument). -/
def pyIsSpace (c : Char) : Bool :=
  c == ' ' || c == '\t' || c == '\n' || c == '\r' || c == '\x0b' || c == '\x0c'

/-- Python `str.strip()`: drop leading and trailing whitespace. -/
def pyStrip (s : String) : String :=
  ⟨((s.data.dropWhile pyIsSpace).reverse.dropWhile pyIsSpace).reverse⟩

/-- Python `str.upper()` (ASCII). -/
def pyUpper (s : String) : String :=
  ⟨s.data.map Char.toUpper⟩

/-- Python `str.lower()` (ASCII). -/
def pyLower (s : String) : String :=
  ⟨s.data.map Char.toLower⟩

/-- Does the second list start with the first one? -/
def startsWithChars : List Char → List Char → Bool
  | [], _ => true
  | _ :: _, [] => false
  | a :: as1, b :: bs => a == b && startsWithChars as1 bs

/-- Python substring containment `needle in haystack`. -/
def containsSub (needle : List Char) : List Char → Bool
  | [] => startsWithChars needle []
  | c :: rest => startsWithChars needle (c :: rest) || containsSub needle rest

/-- Python `str.split(',')` on character lists. -/
def splitOnComma : List Char → List (List Char)
  | [] => [[]]
  | c :: rest =>
      let r := splitOnComma rest
      if c == ',' then [] :: r
      else
        match r with
        | [] => [[c]]
        | g :: gs => (c :: g) :: gs

/-- The numeric value of a list of decimal digit characters (most
significant first), as produced by Python `int` on a digit string. -/
def digitsVal (ds : List Char) : Nat :=
  ds.foldl (fun a c => a * 10 + (c.toNat - 48)) 0

/-- Python `int(s)`: strip whitespace, optional sign, then decimal digits.
Returns `none` where Python raises `ValueError`. -/
def pyInt (s : String) : Option Int :=
  match (pyStrip s).data with
  | '+' :: r => if (!r.isEmpty) && r.all Char.isDigit then some (digitsVal r : Int) else none
  | '-' :: r => if (!r.isEmpty) && r.all Char.isDigit then some (-(digitsVal r : Int)) else none
  | cs => if (!cs.isEmpty) && cs.all Char.isDigit then some (digitsVal cs : Int) else none

/-- Apply an optional exponent suffix (after `e`/`E`) to the value
`num / den` of the mantissa.  The result is the exact rational value of
the decimal literal. -/
def expApply (num : Int) (den : Int) (cs : List Char) : Option ℚ :=
  match cs with
  | '+' :: r =>
      if (!r.isEmpty) && r.all Char.isDigit then
        some (Rat.divInt (num * (10 : Int) ^ digitsVal r) den) else none
  | '-' :: r =>
      if (!r.isEmpty) && r.all Char.isDigit then
        some (Rat.divInt num (den * (10 : Int) ^ digitsVal r)) else none
  | _ =>
      if (!cs.isEmpty) && cs.all Char.isDigit then
        some (Rat.divInt (num * (10 : Int) ^ digitsVal cs) den) else none

/-- The unsigned part of Python `float(s)`: `digits[.digits][(e|E)exp]`,
needing at least one mantissa digit.  Returns the exact rational value. -/
def pyFloatMag (cs : List Char) : Option ℚ :=
  let ip := cs.takeWhile Char.isDigit
  let rest := cs.dropWhile Char.isDigit
  match rest with
  | [] => if ip.isEmpty then none else some (Rat.divInt (digitsVal ip) 1)
  | '.' :: r2 =>
      let fp := r2.takeWhile Char.isDigit
      let r3 := r2.dropWhile Char.isDigit
      if ip.isEmpty && fp.isEmpty then none
      else
        let num : Int := (digitsVal ip : Int) * (10 : Int) ^ fp.length + (digitsVal fp : Int)
        let den : Int := (10 : Int) ^ fp.length
        match r3 with
        | [] => some (Rat.divInt num den)
        | 'e' :: r4 => expApply num den r4
        | 'E' :: r4 => expApply num den r4
        | _ => none
  | 'e' :: r4 => if ip.isEmpty then none else expApply (digitsVal ip) 1 r4
  | 'E' :: r4 => if ip.isEmpty then none else expApply (digitsVal ip) 1 r4
  | _ => none

/-- Python `float(s)` on ordinary decimal literals (strip, optional sign,
mantissa with optional fraction and exponent).  Returns `none` where
Python raises `ValueError`. -/
def pyFloat (s : String) : Option ℚ :=
  match (pyStrip s).data with
  | '+' :: r => pyFloatMag r
  | '-' :: r => (pyFloatMag r).map (fun q => -q)
  | cs => pyFloatMag cs

/-- The exceptions `build_data_dict` can raise (all `ValueError` in Python;
distinguished here by raise site and payload):
* `fieldCount`: `"Unexpected CSV format on line {idx+1}: {parts}"` — carries
  the 1-based line number and the split fields;
* `sampleField`: `"Could not parse sample field: {cell!r}"` from
  `_parse_sample_field`;
* `intConv` / `floatConv`: a failed `int(...)` / `float(...)` conversion. -/
inductive PErr where
  | fieldCount (lineNo : Nat) (parts : List String)
  | sampleField (cell : String)
  | intConv (s : String)
  | floatConv (s : String)
deriving DecidableEq

/-- The `data_dict` of a `PollReader`: six parallel column lists. -/
structure DataDict where
  month : List String
  date : List Int
  sample : List Int
  sampleType : List String
  harris : List ℚ
  trump : List ℚ
deriving DecidableEq

/-- The empty `data_dict` set up by the constructor. -/
def emptyDict : DataDict := ⟨[], [], [], [], [], []⟩

/-- State after `self.data_dict['month'].append(month_str)` (line 96). -/
def appendM (d : DataDict) (m : String) : DataDict :=
  { d with month := d.month ++ [m] }

/-- State after the appends of lines 96–99 (month, date, sample, type). -/
def append4 (d : DataDict) (m : String) (dv : Int) (sn : Int) (st : String) : DataDict :=
  let d1 := appendM d m
  let d2 := { d1 with date := d1.date ++ [dv] }
  let d3 := { d2 with sample := d2.sample ++ [sn] }
  { d3 with sampleType := d3.sampleType ++ [st] }

/-- State after the appends of lines 96–100 (all but the Trump result). -/
def append5 (d : DataDict) (m : String) (dv : Int) (sn : Int) (st : String) (hv : ℚ) : DataDict :=
  let d4 := append4 d m dv sn st
  { d4 with harris := d4.harris ++ [hv] }

/-- State after all six appends of lines 96–101: one full row added. -/
def appendFull (d : DataDict) (m : String) (dv : Int) (sn : Int) (st : String)
    (hv : ℚ) (tv : ℚ) : DataDict :=
  let d5 := append5 d m dv sn st hv
  { d5 with trump := d5.trump ++ [tv] }

/-- `_parse_sample_field(cell)`: all digit characters of the stripped cell
joined form the sample size, all letters joined and uppercased form the
type code; raises when no digit is present. -/
def parseSampleField (cell : String) : Except PErr (Int × String) :=
  let s := pyStrip cell
  let numStr := s.data.filter Char.isDigit
  let typeStr : String := ⟨(s.data.filter Char.isAlpha).map Char.toUpper⟩
  if numStr.isEmpty then .error (.sampleField cell)
  else .ok ((digitsVal numStr : Int), typeStr)

/-- Lines 96–101 of `build_data_dict`: the six `append`s with the remaining
conversions interleaved in source order.  A failed conversion raises with
the appends made so far left in place. -/
def appendRow (d : DataDict) (monthStr dateStr : String) (sampleNum : Int)
    (sampleTypeStr : String) (harrisStr trumpStr : String) :
    Except (PErr × DataDict) DataDict :=
  match pyInt dateStr with
  | none => .error (.intConv dateStr, appendM d monthStr)
  | some dv =>
    match pyFloat harrisStr with
    | none => .error (.floatConv harrisStr, append4 d monthStr dv sampleNum sampleTypeStr)
    | some hv =>
      match pyFloat trumpStr with
      | none => .error (.floatConv trumpStr, append5 d monthStr dv sampleNum sampleTypeStr hv)
      | some tv => .ok (appendFull d monthStr dv sampleNum sampleTypeStr hv tv)

/-- `parts = [p.strip() for p in line.strip().split(',')]` for one raw line. -/
def lineParts (rawLine : String) : List String :=
  (splitOnComma (pyStrip rawLine).data).map (fun p => pyStrip ⟨p⟩)

/-- The header test of line 79: `idx == 0 and 'month' in line.lower()`
(on the stripped line). -/
def headerCheck (idx : Nat) (line : String) : Bool :=
  idx == 0 && containsSub "month".data (pyLower line).data

/-- Is the raw line skipped by `build_data_dict` (blank after stripping, or
the header row)? -/
def skippedLine (idx : Nat) (rawLine : String) : Bool :=
  (pyStrip rawLine).data.isEmpty || headerCheck idx (pyStrip rawLine)

/-- Does the line split into a field count that is neither 5 nor 6? -/
def badCount (rawLine : String) : Bool :=
  !((lineParts rawLine).length == 5 || (lineParts rawLine).length == 6)

/-- The field-count dispatch of lines 85–94 on the split, stripped parts. -/
def parseParts (d : DataDict) (idx : Nat) (parts : List String) :
    Except (PErr × DataDict) DataDict :=
  match parts with
  | [monthStr, dateStr, sampleCell, harrisStr, trumpStr] =>
      match parseSampleField sampleCell with
      | .error e => .error (e, d)
      | .ok (sampleNum, sampleTypeStr) =>
          appendRow d monthStr dateStr sampleNum sampleTypeStr harrisStr trumpStr
  | [monthStr, dateStr, sampleStr, sampleTypeRaw, harrisStr, trumpStr] =>
      match pyInt sampleStr with
      | none => .error (.intConv sampleStr, d)
      | some sampleNum =>
          appendRow d monthStr dateStr sampleNum (pyUpper (pyStrip sampleTypeRaw)) harrisStr trumpStr
  | _ => .error (.fieldCount (idx + 1) parts, d)

/-- One iteration of the `build_data_dict` loop on raw line `idx`. -/
def processLine (d : DataDict) (idx : Nat) (rawLine : String) :
    Except (PErr × DataDict) DataDict :=
  if skippedLine idx rawLine then .ok d
  else parseParts d idx (lineParts rawLine)

/-- The `build_data_dict` loop from line index `idx` onward. -/
def buildFrom (d : DataDict) (idx : Nat) : List String → Except (PErr × DataDict) DataDict
  | [] => .ok d
  | l :: ls =>
      match processLine d idx l with
      | .error e => .error e
      | .ok d2 => buildFrom d2 (idx + 1) ls

/-- `build_data_dict()` over the raw lines, starting from the empty dict. -/
def buildDataDict (rawData : List String) : Except (PErr × DataDict) DataDict :=
  buildFrom emptyDict 0 rawData

/-- `_as_decimal(x)`: `x / 100.0 if x > 1.0 else x`. -/
def asDecimal (x : ℚ) : ℚ :=
  if 1 < x then x / 100 else x

/-- Floor of a rational, computed directly by floored integer division. -/
def ratFloor (q : ℚ) : Int :=
  Int.fdiv q.num q.den

/-- Round a rational to the nearest integer, ties to even (the rounding of
Python's `format`). -/
def roundHalfEven (q : ℚ) : Int :=
  let f := ratFloor q
  if q - (f : ℚ) < 1 / 2 then f
  else if (1 : ℚ) / 2 < q - (f : ℚ) then f + 1
  else if f % 2 = 0 then f else f + 1

/-- Fixed-point rendering of `m` tenths as `"<units>.<tenth>"`. -/
def tenthsRepr (m : Nat) : String :=
  toString (m / 10) ++ "." ++ toString (m % 10)

/-- Python `f"{q:.1f}"`, idealised to exact rational rounding. -/
def fmtFixed1 (q : ℚ) : String :=
  let n : Int := roundHalfEven (q * 10)
  if n < 0 then "-" ++ tenthsRepr n.natAbs else tenthsRepr n.toNat

/-- `highest_polling_candidate` after both result columns have been mapped
through `_as_decimal`; matches the source's emptiness test, `max` over each
list, `1e-12` tie tolerance and `.1f` percentage formatting. -/
def highestCore : List ℚ → List ℚ → String
  | [], _ => "EVEN at 0.0%"
  | _ :: _, [] => "EVEN at 0.0%"
  | h0 :: hs, t0 :: ts =>
      let hMax := hs.foldl max h0
      let tMax := ts.foldl max t0
      if abs (hMax - tMax) < (1 : ℚ) / 10 ^ 12 then
        "EVEN at " ++ fmtFixed1 (hMax * 100) ++ "%"
      else if hMax > tMax then
        "Harris " ++ fmtFixed1 (hMax * 100) ++ "%"
      else
        "Trump " ++ fmtFixed1 (tMax * 100) ++ "%"

/-- `highest_polling_candidate()` on the stored Harris and Trump columns. -/
def highestPollingCandidate (harris trump : List ℚ) : String :=
  highestCore (harris.map asDecimal) (trump.map asDecimal)

/-- Python `zip(a, b, c)`: truncating three-way zip. -/
def zip3 (a : List String) (b c : List ℚ) : List (String × ℚ × ℚ) :=
  a.zip (b.zip c)

/-- The loop of `likely_voter_polling_average`: walk the zipped rows and
collect `_as_decimal` of both results for rows whose stripped, uppercased
type code is `"LV"`. -/
def lvLists : List (String × ℚ × ℚ) → List ℚ × List ℚ
  | [] => ([], [])
  | (s, hv, tv) :: rest =>
      let p := lvLists rest
      if pyUpper (pyStrip s) == "LV" then (asDecimal hv :: p.1, asDecimal tv :: p.2)
      else p

/-- `likely_voter_polling_average()` on the stored type and result columns. -/
def likelyVoterPollingAverage (st : List String) (h t : List ℚ) : ℚ × ℚ :=
  let p := lvLists (zip3 st h t)
  (if p.1.isEmpty then 0 else p.1.sum / p.1.length,
   if p.2.isEmpty then 0 else p.2.sum / p.2.length)

/-- The arithmetic mean of a list of rationals (`0` on the empty list,
matching the guarded divisions of the source). -/
def mean (xs : List ℚ) : ℚ :=
  xs.sum / xs.length

/-- Claim C7's reading of the likely-voter query, stated in the spec's
words: filter the rows whose type code (whitespace-trimmed,
case-insensitively) equals `"LV"`, and return the arithmetic means of the
normalised Harris and Trump results over the filtered subset, or `(0, 0)`
when no row matches. -/
def specLikelyVoterAverage (st : List String) (h t : List ℚ) : ℚ × ℚ :=
  let matched := (zip3 st h t).filter (fun r => pyUpper (pyStrip r.1) == "LV")
  if matched.isEmpty then (0, 0)
  else (mean (matched.map (fun r => asDecimal r.2.1)),
        mean (matched.map (fun r => asDecimal r.2.2)))

/-- The window size of `polling_history_change`:
`30 if n >= 60 else max(0, n // 2)`. -/
def windowSize (n : Nat) : Nat :=
  if 60 ≤ n then 30 else max 0 (n / 2)

/-- `avg_at(rows, series)`: the mean of `series` over the index list
`rows`.  Indexing is modelled with `getD` (only ever used in bounds). -/
def avgAt (rows : List Nat) (series : List ℚ) : ℚ :=
  (rows.map (fun i => series.getD i 0)).sum / rows.length

/-- `polling_history_change()` on the stored result columns, file-order
variant: `latest = range(0, k)`, `earliest = range(n - k, n)`. -/
def pollingHistoryChange (h t : List ℚ) : ℚ × ℚ :=
  let n := h.length
  if n = 0 then (0, 0)
  else
    let hVals := h.map asDecimal
    let tVals := t.map asDecimal
    let k := windowSize n
    if k = 0 then (0, 0)
    else
      let latestIdx := List.range k
      let earliestIdx := (List.range k).map (fun i => n - k + i)
      (avgAt latestIdx hVals - avgAt earliestIdx hVals,
       avgAt latestIdx tVals - avgAt earliestIdx tVals)

/-- Did the computation succeed (no exception)? -/
def exOk {ε α : Type} : Except ε α → Bool
  | .ok _ => true
  | .error _ => false

/-- Did `build_data_dict` end in the field-count `ValueError` of line 94? -/
def isFieldCountRes : Except (PErr × DataDict) DataDict → Bool
  | .error (.fieldCount _ _, _) => true
  | _ => false

/-- Is there a non-blank, non-header line (from absolute index `idx`
onward) whose field count is neither 5 nor 6? -/
def hasBadLine (idx : Nat) : List String → Bool
  | [] => false
  | l :: ls => (!skippedLine idx l && badCount l) || hasBadLine (idx + 1) ls

/-- The maximal contiguous digit runs of a character list: `digitRunsAux
cur cs` with `cur` the (reversed) run in progress. -/
def digitRunsAux (cur : List Char) : List Char → List (List Char)
  | [] => if cur.isEmpty then [] else [cur.reverse]
  | c :: rest =>
      if c.isDigit then digitRunsAux (c :: cur) rest
      else if cur.isEmpty then digitRunsAux [] rest
      else cur.reverse :: digitRunsAux [] rest

/-- Claim C4's reading of the sample-size extraction, stated in the spec's
words: the longest contiguous digit run of the (stripped) cell after
thousands separators (commas) are removed — the earliest such run on
ties. -/
def specMaxDigitRun (cell : String) : List Char :=
  let runs := digitRunsAux [] ((pyStrip cell).data.filter (fun c => !(c == ',')))
  runs.foldl (fun best r => if best.length < r.length then r else best) []

/-! ## Characterisation lemmas for the parser -/

theorem appendRow_ok {d : DataDict} {m ds : String} {sn : Int} {st : String}
    {hs ts : String} {d2 : DataDict}
    (h : appendRow d m ds sn st hs ts = .ok d2) :
    ∃ dv hv tv, pyInt ds = some dv ∧ pyFloat hs = some hv ∧ pyFloat ts = some tv ∧
      d2 = appendFull d m dv sn st hv tv := by
  unfold appendRow at h
  cases hdi : pyInt ds with
  | none => rw [hdi] at h; simp at h
  | some dv =>
    rw [hdi] at h
    cases hh : pyFloat hs with
    | none => rw [hh] at h; simp at h
    | some hv =>
      rw [hh] at h
      cases ht : pyFloat ts with
      | none => rw [ht] at h; simp at h
      | some tv =>
        rw [ht] at h
        simp only [Except.ok.injEq] at h
        exact ⟨dv, hv, tv, rfl, rfl, rfl, h.symm⟩

theorem appendRow_error {d : DataDict} {m ds : String} {sn : Int} {st : String}
    {hs ts : String} {e : PErr} {d2 : DataDict}
    (h : appendRow d m ds sn st hs ts = .error (e, d2)) :
    (e = .intConv ds ∧ d2 = appendM d m) ∨
    (∃ dv, e = .floatConv hs ∧ d2 = append4 d m dv sn st) ∨
    (∃ dv hv, e = .floatConv ts ∧ d2 = append5 d m dv sn st hv) := by
  unfold appendRow at h
  cases hdi : pyInt ds with
  | none =>
    rw [hdi] at h
    simp only [Except.error.injEq, Prod.mk.injEq] at h
    exact Or.inl ⟨h.1.symm, h.2.symm⟩
  | some dv =>
    rw [hdi] at h
    cases hh : pyFloat hs with
    | none =>
      rw [hh] at h
      simp only [Except.error.injEq, Prod.mk.injEq] at h
      exact Or.inr (Or.inl ⟨dv, h.1.symm, h.2.symm⟩)
    | some hv =>
      rw [hh] at h
      cases ht : pyFloat ts with
      | none =>
        rw [ht] at h
        simp only [Except.error.injEq, Prod.mk.injEq] at h
        exact Or.inr (Or.inr ⟨dv, hv, h.1.symm, h.2.symm⟩)
      | some tv => rw [ht] at h; simp at h

theorem parseParts_ok {d : DataDict} {idx : Nat} {parts : List String} {d2 : DataDict}
    (h : parseParts d idx parts = .ok d2) :
    ∃ m dv sn st hv tv, d2 = appendFull d m dv sn st hv tv := by
  rcases parts with _ | ⟨p1, _ | ⟨p2, _ | ⟨p3, _ | ⟨p4, _ | ⟨p5, _ | ⟨p6, _ | ⟨p7, rest⟩⟩⟩⟩⟩⟩⟩
  · simp [parseParts] at h
  · simp [parseParts] at h
  · simp [parseParts] at h
  · simp [parseParts] at h
  · simp [parseParts] at h
  · -- five fields
    simp only [parseParts] at h
    cases hps : parseSampleField p3 with
    | error e0 => rw [hps] at h; simp at h
    | ok v =>
      obtain ⟨sn, st⟩ := v
      rw [hps] at h
      simp only at h
      obtain ⟨dv, hv, tv, _, _, _, hd⟩ := appendRow_ok h
      exact ⟨p1, dv, sn, st, hv, tv, hd⟩
  · -- six fields
    simp only [parseParts] at h
    cases hpi : pyInt p3 with
    | none => rw [hpi] at h; simp at h
    | some sn =>
      rw [hpi] at h
      simp only at h
      obtain ⟨dv, hv, tv, _, _, _, hd⟩ := appendRow_ok h
      exact ⟨p1, dv, sn, pyUpper (pyStrip p4), hv, tv, hd⟩
  · simp [parseParts] at h

theorem parseParts_error {d : DataDict} {idx : Nat} {parts : List String}
    {e : PErr} {d2 : DataDict}
    (h : parseParts d idx parts = .error (e, d2)) :
    ((∃ i p, e = .fieldCount i p) → e = .fieldCount (idx + 1) parts ∧ d2 = d ∧
        parts.length ≠ 5 ∧ parts.length ≠ 6) ∧
    ((∃ c, e = .sampleField c) → d2 = d) ∧
    ((∃ s, e = .intConv s) → d2 = d ∨ ∃ m, d2 = appendM d m) ∧
    ((∃ s, e = .floatConv s) →
        (∃ m dv sn st, d2 = append4 d m dv sn st) ∨
        (∃ m dv sn st hv, d2 = append5 d m dv sn st hv)) := by
  rcases parts with _ | ⟨p1, _ | ⟨p2, _ | ⟨p3, _ | ⟨p4, _ | ⟨p5, _ | ⟨p6, _ | ⟨p7, rest⟩⟩⟩⟩⟩⟩⟩
  case nil =>
    simp only [parseParts, Except.error.injEq, Prod.mk.injEq] at h
    refine ⟨fun _ => ⟨h.1.symm, h.2.symm, by simp, by simp⟩, fun hc => h.2.symm, ?_, ?_⟩
    · rcases h.1 with rfl; exact fun ⟨s, hs⟩ => by simp at hs
    · rcases h.1 with rfl; exact fun ⟨s, hs⟩ => by simp at hs
  case cons.nil =>
    simp only [parseParts, Except.error.injEq, Prod.mk.injEq] at h
    refine ⟨fun _ => ⟨h.1.symm, h.2.symm, by simp, by simp⟩, fun hc => h.2.symm, ?_, ?_⟩
    · rcases h.1 with rfl; exact fun ⟨s, hs⟩ => by simp at hs
    · rcases h.1 with rfl; exact fun ⟨s, hs⟩ => by simp at hs
  case cons.cons.nil =>
    simp only [parseParts, Except.error.injEq, Prod.mk.injEq] at h
    refine ⟨fun _ => ⟨h.1.symm, h.2.symm, by simp, by simp⟩, fun hc => h.2.symm, ?_, ?_⟩
    · rcases h.1 with rfl; exact fun ⟨s, hs⟩ => by simp at hs
    · rcases h.1 with rfl; exact fun ⟨s, hs⟩ => by simp at hs
  case cons.cons.cons.nil =>
    simp only [parseParts, Except.error.injEq, Prod.mk.injEq] at h
    refine ⟨fun _ => ⟨h.1.symm, h.2.symm, by simp, by simp⟩, fun hc => h.2.symm, ?_, ?_⟩
    · rcases h.1 with rfl; exact fun ⟨s, hs⟩ => by simp at hs
    · rcases h.1 with rfl; exact fun ⟨s, hs⟩ => by simp at hs
  case cons.cons.cons.cons.nil =>
    simp only [parseParts, Except.error.injEq, Prod.mk.injEq] at h
    refine ⟨fun _ => ⟨h.1.symm, h.2.symm, by simp, by simp⟩, fun hc => h.2.symm, ?_, ?_⟩
    · rcases h.1 with rfl; exact fun ⟨s, hs⟩ => by simp at hs
    · rcases h.1 with rfl; exact fun ⟨s, hs⟩ => by simp at hs
  case cons.cons.cons.cons.cons.nil =>
    -- five fields: the error is the sample-field one or from `appendRow`
    simp only [parseParts] at h
    cases hps : parseSampleField p3 with
    | error e0 =>
      rw [hps] at h
      simp only [Except.error.injEq, Prod.mk.injEq] at h
      obtain ⟨rfl, rfl⟩ := h
      unfold parseSampleField at hps
      by_cases hn : ((pyStrip p3).data.filter Char.isDigit).isEmpty
      · simp only [hn, if_pos] at hps
        simp only [Except.error.injEq] at hps
        refine ⟨fun ⟨i, p, hip⟩ => ?_, fun _ => rfl, fun ⟨s, hs⟩ => ?_, fun ⟨s, hs⟩ => ?_⟩
        · rw [← hps] at hip; simp at hip
        · rw [← hps] at hs; simp at hs
        · rw [← hps] at hs; simp at hs
      · simp only [hn, if_neg, if_false] at hps
        simp at hps
    | ok v =>
      obtain ⟨sn, st⟩ := v
      rw [hps] at h
      simp only at h
      rcases appendRow_error h with ⟨he, hd⟩ | ⟨dv, he, hd⟩ | ⟨dv, hv, he, hd⟩
      · subst he
        exact ⟨fun ⟨i, p, hip⟩ => by simp at hip, fun ⟨c, hc⟩ => by simp at hc,
          fun _ => Or.inr ⟨p1, hd⟩, fun ⟨s, hs⟩ => by simp at hs⟩
      · subst he
        exact ⟨fun ⟨i, p, hip⟩ => by simp at hip, fun ⟨c, hc⟩ => by simp at hc,
          fun ⟨s, hs⟩ => by simp at hs, fun _ => Or.inl ⟨p1, dv, sn, st, hd⟩⟩
      · subst he
        exact ⟨fun ⟨i, p, hip⟩ => by simp at hip, fun ⟨c, hc⟩ => by simp at hc,
          fun ⟨s, hs⟩ => by simp at hs, fun _ => Or.inr ⟨p1, dv, sn, st, hv, hd⟩⟩
  case cons.cons.cons.cons.cons.cons.nil =>
    -- six fields: the error is the sample-size conversion or from `appendRow`
    simp only [parseParts] at h
    cases hpi : pyInt p3 with
    | none =>
      rw [hpi] at h
      simp only [Except.error.injEq, Prod.mk.injEq] at h
      obtain ⟨rfl, rfl⟩ := h
      exact ⟨fun ⟨i, p, hip⟩ => by simp at hip, fun ⟨c, hc⟩ => by simp at hc,
        fun _ => Or.inl rfl, fun ⟨s, hs⟩ => by simp at hs⟩
    | some sn =>
      rw [hpi] at h
      simp only at h
      rcases appendRow_error h with ⟨he, hd⟩ | ⟨dv, he, hd⟩ | ⟨dv, hv, he, hd⟩
      · subst he
        exact ⟨fun ⟨i, p, hip⟩ => by simp at hip, fun ⟨c, hc⟩ => by simp at hc,
          fun _ => Or.inr ⟨p1, hd⟩, fun ⟨s, hs⟩ => by simp at hs⟩
      · subst he
        exact ⟨fun ⟨i, p, hip⟩ => by simp at hip, fun ⟨c, hc⟩ => by simp at hc,
          fun ⟨s, hs⟩ => by simp at hs,
          fun _ => Or.inl ⟨p1, dv, sn, pyUpper (pyStrip p4), hd⟩⟩
      · subst he
        exact ⟨fun ⟨i, p, hip⟩ => by simp at hip, fun ⟨c, hc⟩ => by simp at hc,
          fun ⟨s, hs⟩ => by simp at hs,
          fun _ => Or.inr ⟨p1, dv, sn, pyUpper (pyStrip p4), hv, hd⟩⟩
  case cons.cons.cons.cons.cons.cons.cons =>
    simp only [parseParts, Except.error.injEq, Prod.mk.injEq] at h
    refine ⟨fun _ => ⟨h.1.symm, h.2.symm, by simp, ?_⟩, fun hc => h.2.symm, ?_, ?_⟩
    · simp only [List.length_cons]; omega
    · rcases h.1 with rfl; exact fun ⟨s, hs⟩ => by simp at hs
    · rcases h.1 with rfl; exact fun ⟨s, hs⟩ => by simp at hs

theorem parseParts_badLen {d : DataDict} {idx : Nat} {parts : List String}
    (h5 : parts.length ≠ 5) (h6 : parts.length ≠ 6) :
    parseParts d idx parts = .error (.fieldCount (idx + 1) parts, d) := by
  rcases parts with _ | ⟨p1, _ | ⟨p2, _ | ⟨p3, _ | ⟨p4, _ | ⟨p5, _ | ⟨p6, _ | ⟨p7, rest⟩⟩⟩⟩⟩⟩⟩
  · rfl
  · rfl
  · rfl
  · rfl
  · rfl
  · simp at h5
  · simp at h6
  · rfl

theorem appendRow_exOk_indep (d d0 : DataDict) (m ds : String) (sn : Int)
    (st : String) (hs ts : String) :
    exOk (appendRow d m ds sn st hs ts) = exOk (appendRow d0 m ds sn st hs ts) := by
  unfold appendRow
  cases pyInt ds with
  | none => rfl
  | some dv =>
    cases pyFloat hs with
    | none => rfl
    | some hv => cases pyFloat ts with
      | none => rfl
      | some tv => rfl

theorem parseParts_exOk_indep (d d0 : DataDict) (idx : Nat) (parts : List String) :
    exOk (parseParts d idx parts) = exOk (parseParts d0 idx parts) := by
  rcases parts with _ | ⟨p1, _ | ⟨p2, _ | ⟨p3, _ | ⟨p4, _ | ⟨p5, _ | ⟨p6, _ | ⟨p7, rest⟩⟩⟩⟩⟩⟩⟩
  · rfl
  · rfl
  · rfl
  · rfl
  · rfl
  · simp only [parseParts]
    cases parseSampleField p3 with
    | error e0 => rfl
    | ok v => exact appendRow_exOk_indep d d0 p1 p2 v.1 v.2 p4 p5
  · simp only [parseParts]
    cases pyInt p3 with
    | none => rfl
    | some sn => exact appendRow_exOk_indep d d0 p1 p2 sn (pyUpper (pyStrip p4)) p5 p6
  · rfl

theorem processLine_skip {d : DataDict} {idx : Nat} {l : String}
    (h : skippedLine idx l = true) : processLine d idx l = .ok d := by
  simp [processLine, h]

theorem processLine_not_skip {d : DataDict} {idx : Nat} {l : String}
    (h : skippedLine idx l = false) :
    processLine d idx l = parseParts d idx (lineParts l) := by
  simp [processLine, h]

theorem processLine_exOk_indep (d d0 : DataDict) (idx : Nat) (l : String) :
    exOk (processLine d idx l) = exOk (processLine d0 idx l) := by
  unfold processLine
  cases hsk : skippedLine idx l
  · simp only [Bool.false_eq_true, if_false]
    exact parseParts_exOk_indep d d0 idx (lineParts l)
  · rfl

theorem processLine_ok_cases {d : DataDict} {idx : Nat} {l : String} {d2 : DataDict}
    (h : processLine d idx l = .ok d2) :
    d2 = d ∨ ∃ m dv sn st hv tv, d2 = appendFull d m dv sn st hv tv := by
  unfold processLine at h
  cases hsk : skippedLine idx l
  · rw [hsk] at h
    simp only [Bool.false_eq_true, if_false] at h
    exact Or.inr (parseParts_ok h)
  · rw [hsk] at h
    simp only [if_true] at h
    exact Or.inl (Except.ok.inj h).symm

theorem processLine_error_cases {d : DataDict} {idx : Nat} {l : String}
    {e : PErr} {d2 : DataDict} (h : processLine d idx l = .error (e, d2)) :
    skippedLine idx l = false ∧ parseParts d idx (lineParts l) = .error (e, d2) := by
  unfold processLine at h
  cases hsk : skippedLine idx l
  · rw [hsk] at h
    simp only [Bool.false_eq_true, if_false] at h
    exact ⟨rfl, h⟩
  · rw [hsk] at h
    simp at h

theorem badCount_of_len {l : String} (h5 : (lineParts l).length ≠ 5)
    (h6 : (lineParts l).length ≠ 6) : badCount l = true := by
  simp only [badCount, Bool.not_eq_eq_eq_not, Bool.not_true, Bool.or_eq_false_iff]
  exact ⟨by simpa using h5, by simpa using h6⟩

theorem len_of_badCount {l : String} (h : badCount l = true) :
    (lineParts l).length ≠ 5 ∧ (lineParts l).length ≠ 6 := by
  simp only [badCount, Bool.not_eq_eq_eq_not, Bool.not_true, Bool.or_eq_false_iff] at h
  exact ⟨by simpa using h.1, by simpa using h.2⟩

theorem processLine_fieldCount {d : DataDict} {idx : Nat} {l : String}
    {i : Nat} {p : List String} {d2 : DataDict}
    (h : processLine d idx l = .error (.fieldCount i p, d2)) :
    skippedLine idx l = false ∧ badCount l = true ∧ i = idx + 1 ∧
      p = lineParts l ∧ d2 = d := by
  obtain ⟨hsk, hp⟩ := processLine_error_cases h
  obtain ⟨he, hd, h5, h6⟩ := (parseParts_error hp).1 ⟨i, p, rfl⟩
  obtain ⟨hi, hpp⟩ := PErr.fieldCount.inj he
  exact ⟨hsk, badCount_of_len h5 h6, hi, hpp, hd⟩

theorem processLine_badCount {d : DataDict} {idx : Nat} {l : String}
    (hsk : skippedLine idx l = false) (hb : badCount l = true) :
    processLine d idx l = .error (.fieldCount (idx + 1) (lineParts l), d) := by
  rw [processLine_not_skip hsk]
  obtain ⟨h5, h6⟩ := len_of_badCount hb
  exact parseParts_badLen h5 h6

/-! ## The `build_data_dict` loop -/

/-- All six column lists have the length of the month column. -/
def lensEq (d : DataDict) : Prop :=
  d.date.length = d.month.length ∧ d.sample.length = d.month.length ∧
  d.sampleType.length = d.month.length ∧ d.harris.length = d.month.length ∧
  d.trump.length = d.month.length

theorem lensEq_appendFull {d : DataDict} (hl : lensEq d) (m : String) (dv sn : Int)
    (st : String) (hv tv : ℚ) : lensEq (appendFull d m dv sn st hv tv) := by
  obtain ⟨h1, h2, h3, h4, h5⟩ := hl
  simp [lensEq, appendFull, append5, append4, appendM, List.length_append,
    h1, h2, h3, h4, h5]

theorem buildFrom_ok_lensEq :
    ∀ (ls : List String) (d : DataDict) (idx : Nat) (d2 : DataDict),
      buildFrom d idx ls = .ok d2 → lensEq d → lensEq d2 := by
  intro ls
  induction ls with
  | nil =>
    intro d idx d2 h hl
    obtain rfl : d = d2 := Except.ok.inj h
    exact hl
  | cons a ls ih =>
    intro d idx d2 h hl
    unfold buildFrom at h
    cases hpl : processLine d idx a with
    | error e => rw [hpl] at h; simp at h
    | ok d3 =>
      rw [hpl] at h
      simp only at h
      rcases processLine_ok_cases hpl with rfl | ⟨m, dv, sn, st, hv, tv, rfl⟩
      · exact ih d3 (idx + 1) d2 h hl
      · exact ih _ (idx + 1) d2 h (lensEq_appendFull hl m dv sn st hv tv)

theorem buildFrom_fieldCount_inv :
    ∀ (ls : List String) (idx : Nat) (d : DataDict) (i : Nat) (p : List String)
      (d2 : DataDict),
      buildFrom d idx ls = .error (.fieldCount i p, d2) →
      ∃ j l, ls[j]? = some l ∧ i = idx + j + 1 ∧ p = lineParts l ∧
        skippedLine (idx + j) l = false ∧ badCount l = true := by
  intro ls
  induction ls with
  | nil => intro idx d i p d2 h; simp [buildFrom] at h
  | cons a ls ih =>
    intro idx d i p d2 h
    unfold buildFrom at h
    cases hpl : processLine d idx a with
    | error e =>
      rw [hpl] at h
      simp only [Except.error.injEq] at h
      rw [h] at hpl
      obtain ⟨hsk, hb, hi, hp, _⟩ := processLine_fieldCount hpl
      exact ⟨0, a, by simp, by omega, hp, by simpa using hsk, hb⟩
    | ok d3 =>
      rw [hpl] at h
      simp only at h
      obtain ⟨j, l, hget, hi, hp, hsk, hb⟩ := ih (idx + 1) d3 i p d2 h
      refine ⟨j + 1, l, by simpa using hget, by omega, hp, ?_, hb⟩
      have : idx + 1 + j = idx + (j + 1) := by omega
      rw [← this]
      exact hsk

theorem buildFrom_fieldCount_exists :
    ∀ (ls : List String) (idx : Nat) (d : DataDict),
      (∀ j l, ls[j]? = some l →
        exOk (processLine emptyDict (idx + j) l) = true ∨ badCount l = true) →
      (∃ j l, ls[j]? = some l ∧ skippedLine (idx + j) l = false ∧ badCount l = true) →
      ∃ j l d2, ls[j]? = some l ∧
        buildFrom d idx ls = .error (.fieldCount (idx + j + 1) (lineParts l), d2) := by
  intro ls
  induction ls with
  | nil => intro idx d _ hw; obtain ⟨j, l, hget, _⟩ := hw; simp at hget
  | cons a ls ih =>
    intro idx d H hw
    by_cases hba : skippedLine idx a = false ∧ badCount a = true
    · refine ⟨0, a, d, by simp, ?_⟩
      have hstep : processLine d idx a =
          .error (.fieldCount (idx + 1) (lineParts a), d) :=
        processLine_badCount hba.1 hba.2
      unfold buildFrom
      rw [hstep]
    · have ha : exOk (processLine d idx a) = true := by
        cases hsk : skippedLine idx a
        · rcases H 0 a (by simp) with hok | hbad
          · rw [processLine_exOk_indep d emptyDict idx a]
            simpa using hok
          · exact absurd ⟨hsk, hbad⟩ hba
        · rw [processLine_skip hsk]; rfl
      obtain ⟨d3, hd3⟩ : ∃ d3, processLine d idx a = .ok d3 := by
        cases hpl : processLine d idx a with
        | error e => rw [hpl] at ha; simp [exOk] at ha
        | ok d3 => exact ⟨d3, rfl⟩
      obtain ⟨j, l, hget, hskp, hbd⟩ := hw
      cases j with
      | zero =>
        obtain rfl : a = l := by simpa using hget
        exact absurd ⟨by simpa using hskp, hbd⟩ hba
      | succ j' =>
        have H' : ∀ j l, ls[j]? = some l →
            exOk (processLine emptyDict (idx + 1 + j) l) = true ∨ badCount l = true := by
          intro j l hg
          have := H (j + 1) l (by simpa using hg)
          rwa [show idx + (j + 1) = idx + 1 + j by omega] at this
        have hw' : ∃ j l, ls[j]? = some l ∧
            skippedLine (idx + 1 + j) l = false ∧ badCount l = true := by
          refine ⟨j', l, by simpa using hget, ?_, hbd⟩
          rwa [show idx + 1 + j' = idx + (j' + 1) by omega]
        obtain ⟨j2, l2, dE, hget2, hrun⟩ := ih (idx + 1) d3 H' hw'
        refine ⟨j2 + 1, l2, dE, by simpa using hget2, ?_⟩
        unfold buildFrom
        rw [hd3]
        simp only
        rwa [show idx + (j2 + 1) + 1 = idx + 1 + j2 + 1 by omega]

/-! ## Lemmas for the aggregate queries -/

theorem le_foldl_max : ∀ (l : List ℚ) (b : ℚ), b ≤ l.foldl max b
  | [], _ => le_refl _
  | a :: l, b => le_trans (le_max_left b a) (le_foldl_max l (max b a))

theorem mem_le_foldl_max : ∀ (l : List ℚ) (b x : ℚ), x ∈ l → x ≤ l.foldl max b
  | a :: l, b, x, hx => by
    rcases List.mem_cons.mp hx with rfl | hx2
    · exact le_trans (le_max_right b x) (le_foldl_max l (max b x))
    · exact mem_le_foldl_max l (max b a) x hx2

theorem foldl_max_mem : ∀ (l : List ℚ) (b : ℚ), l.foldl max b = b ∨ l.foldl max b ∈ l
  | [], _ => Or.inl rfl
  | a :: l, b => by
    rcases foldl_max_mem l (max b a) with h | h
    · rcases max_choice b a with hba | hba
      · left; rw [List.foldl_cons, h, hba]
      · right; rw [List.foldl_cons, h, hba]; exact List.mem_cons_self a l
    · right; exact List.mem_cons_of_mem a h

/-- The fold computing Python `max` over a nonempty list equals any value
that belongs to the list and bounds it from above. -/
theorem foldl_max_eq {l : List ℚ} {b hm : ℚ} (hmem : hm ∈ b :: l)
    (hub : ∀ x ∈ b :: l, x ≤ hm) : l.foldl max b = hm := by
  apply le_antisymm
  · rcases foldl_max_mem l b with h | h
    · rw [h]; exact hub b (List.mem_cons_self b l)
    · exact hub _ (List.mem_cons_of_mem b h)
  · rcases List.mem_cons.mp hmem with rfl | h
    · exact le_foldl_max l hm
    · exact mem_le_foldl_max l b hm h

/-- The likely-voter loop collects exactly `_as_decimal` of both results
over the rows passing the `"LV"` filter. -/
theorem lvLists_eq (rows : List (String × ℚ × ℚ)) :
    lvLists rows =
      ((rows.filter (fun r => pyUpper (pyStrip r.1) == "LV")).map (fun r => asDecimal r.2.1),
       (rows.filter (fun r => pyUpper (pyStrip r.1) == "LV")).map (fun r => asDecimal r.2.2)) := by
  induction rows with
  | nil => rfl
  | cons r rows ih =>
    obtain ⟨s, hv, tv⟩ := r
    by_cases hc : (pyUpper (pyStrip s) == "LV") = true
    · simp [lvLists, ih, List.filter_cons, hc]
    · simp [lvLists, ih, List.filter_cons, hc]

/-- Indexing sums: reading `k` in-bounds positions in order is taking the
first `k` elements. -/
theorem map_getD_range : ∀ (k : Nat) (xs : List ℚ), k ≤ xs.length →
    (List.range k).map (fun i => xs.getD i 0) = xs.take k := by
  intro k
  induction k with
  | zero => intro xs _; simp
  | succ n ih =>
    intro xs hk
    have hn : n < xs.length := Nat.lt_of_succ_le hk
    rw [List.range_succ, List.map_append, ih xs (Nat.le_of_lt hn), List.take_succ]
    simp [List.getD_eq_getElem?_getD, List.getElem?_eq_getElem hn]

theorem getD_drop (m : Nat) (xs : List ℚ) (i : Nat) :
    (xs.drop m).getD i 0 = xs.getD (m + i) 0 := by
  simp [List.getD_eq_getElem?_getD, List.getElem?_drop]

/-- Reading `k` positions starting at `xs.length - k` is taking the last
`k` elements. -/
theorem map_getD_range_last (k : Nat) (xs : List ℚ) (hk : k ≤ xs.length) :
    (List.range k).map (fun i => xs.getD (xs.length - k + i) 0) =
      xs.drop (xs.length - k) := by
  have h1 : ∀ i, xs.getD (xs.length - k + i) 0 = (xs.drop (xs.length - k)).getD i 0 := by
    intro i; rw [getD_drop]
  have h2 : (List.range k).map (fun i => xs.getD (xs.length - k + i) 0) =
      (List.range k).map (fun i => (xs.drop (xs.length - k)).getD i 0) := by
    exact List.map_congr_left (fun i _ => h1 i)
  rw [h2]
  have hlen : (xs.drop (xs.length - k)).length = k := by
    rw [List.length_drop]; omega
  rw [map_getD_range k _ (le_of_eq hlen.symm)]
  exact List.take_of_length_le (le_of_eq hlen)

/-! ## Claim theorems -/

/-- C5: normalisation to a decimal fraction — `_as_decimal` is a no-op on
every value already in `[0, 1]`, and divides every value strictly greater
than `1.0` by exactly `100`. -/
theorem claim_C5_as_decimal (x : ℚ) :
    (0 ≤ x → x ≤ 1 → asDecimal x = x) ∧ (1 < x → asDecimal x = x / 100) := by
  constructor
  · intro _ hx1
    simp [asDecimal, not_lt.mpr hx1]
  · intro hx
    simp [asDecimal, hx]

theorem claim_C5_witness :
    asDecimal (1 / 2 : ℚ) = 1 / 2 ∧ asDecimal (57 : ℚ) = 57 / 100 :=
  ⟨(claim_C5_as_decimal (1 / 2)).1 (by norm_num) (by norm_num),
   (claim_C5_as_decimal 57).2 (by norm_num)⟩

/-- C8: the historical-change window size is exactly 30 whenever the table
has at least 60 rows and exactly `⌊n/2⌋` otherwise, and with a window size
of 0 (fewer than 2 rows) the query returns `(0.0, 0.0)`. -/
theorem claim_C8_window (n : Nat) (h t : List ℚ) :
    (60 ≤ n → windowSize n = 30) ∧ (n < 60 → windowSize n = n / 2) ∧
    (h.length < 2 → pollingHistoryChange h t = (0, 0)) := by
  refine ⟨fun hn => ?_, fun hn => ?_, fun hlen => ?_⟩
  · rw [windowSize, if_pos hn]
  · rw [windowSize, if_neg (by omega)]
    exact Nat.zero_max _
  · rcases h with _ | ⟨a, _ | ⟨b, l⟩⟩
    · rfl
    · simp [pollingHistoryChange, windowSize]
    · simp only [List.length_cons] at hlen
      omega

theorem claim_C8_witness :
    windowSize 60 = 30 ∧ windowSize 7 = 3 ∧
    pollingHistoryChange [(1 : ℚ)] [(1 : ℚ)] = (0, 0) :=
  ⟨(claim_C8_window 60 [] []).1 (by omega),
   (claim_C8_window 7 [] []).2.1 (by omega),
   (claim_C8_window 0 [(1 : ℚ)] [(1 : ℚ)]).2.2 (by simp)⟩

/-- C2: whenever `build_data_dict` completes without an exception (in
particular on every input whose non-blank, non-header lines all parse),
the six stored column sequences have equal length.  The date and
sample-size entries are integers by construction (`date`, `sample :
List Int`, filled from `int(...)` conversions). -/
theorem claim_C2_equal_lengths (raw : List String) (d : DataDict)
    (h : buildDataDict raw = .ok d) :
    d.month.length = d.date.length ∧ d.date.length = d.sample.length ∧
    d.sample.length = d.sampleType.length ∧
    d.sampleType.length = d.harris.length ∧
    d.harris.length = d.trump.length := by
  obtain ⟨h1, h2, h3, h4, h5⟩ :=
    buildFrom_ok_lensEq raw emptyDict 0 d h ⟨rfl, rfl, rfl, rfl, rfl⟩
  omega

theorem claim_C2_witness :
    ∃ d : DataDict,
      buildDataDict ["Month,Date,Sample,Harris,Trump", "",
        "Aug,5,1880 LV,0.57,0.43", "Sep,9,2000,rv,52.1,47.0"] = .ok d ∧
      (d.month.length = d.date.length ∧ d.date.length = d.sample.length ∧
       d.sample.length = d.sampleType.length ∧
       d.sampleType.length = d.harris.length ∧
       d.harris.length = d.trump.length) := by
  refine ⟨_, rfl, ?_⟩
  exact claim_C2_equal_lengths ["Month,Date,Sample,Harris,Trump", "",
    "Aug,5,1880 LV,0.57,0.43", "Sep,9,2000,rv,52.1,47.0"] _ rfl

/-- C7: the likely-voter query returns exactly the pair of arithmetic means
of the normalised Harris and Trump results over the rows whose type code,
whitespace-trimmed and uppercased, equals `"LV"`, and `(0.0, 0.0)` (without
raising) when no row matches. -/
theorem claim_C7_lv_average (st : List String) (h t : List ℚ) :
    likelyVoterPollingAverage st h t = specLikelyVoterAverage st h t := by
  unfold likelyVoterPollingAverage specLikelyVoterAverage
  rw [lvLists_eq]
  by_cases hm : (zip3 st h t).filter (fun r => pyUpper (pyStrip r.1) == "LV") = []
  · simp [hm]
  · simp [hm, mean, List.isEmpty_iff, List.map_eq_nil_iff, List.length_map]

/-- C6: the highest-polling query compares the maxima of the normalised
Harris and Trump columns, reports `"EVEN"` at the Harris maximum when they
differ by less than `1e-12`, otherwise the winner's name with the value as
a one-decimal percentage; on zero rows it returns exactly
`"EVEN at 0.0%"`. -/
theorem claim_C6_highest :
    highestPollingCandidate [] [] = "EVEN at 0.0%" ∧
    ∀ (harris trump : List ℚ) (hm tm : ℚ),
      hm ∈ harris.map asDecimal → (∀ x ∈ harris.map asDecimal, x ≤ hm) →
      tm ∈ trump.map asDecimal → (∀ x ∈ trump.map asDecimal, x ≤ tm) →
      highestPollingCandidate harris trump =
        if abs (hm - tm) < (1 : ℚ) / 10 ^ 12 then
          "EVEN at " ++ fmtFixed1 (hm * 100) ++ "%"
        else if hm > tm then "Harris " ++ fmtFixed1 (hm * 100) ++ "%"
        else "Trump " ++ fmtFixed1 (tm * 100) ++ "%" := by
  constructor
  · rfl
  · intro harris trump hm tm hmem hub tmem tub
    unfold highestPollingCandidate
    rcases hH : harris.map asDecimal with _ | ⟨h0, hs⟩
    · rw [hH] at hmem; cases hmem
    rcases hT : trump.map asDecimal with _ | ⟨t0, ts⟩
    · rw [hT] at tmem; cases tmem
    rw [hH] at hmem hub
    rw [hT] at tmem tub
    simp only [highestCore]
    rw [foldl_max_eq hmem hub, foldl_max_eq tmem tub]

theorem claim_C6_witness :
    highestPollingCandidate [(1 : ℚ)] [(0 : ℚ)] =
      if abs ((1 : ℚ) - 0) < (1 : ℚ) / 10 ^ 12 then
        "EVEN at " ++ fmtFixed1 ((1 : ℚ) * 100) ++ "%"
      else if (1 : ℚ) > 0 then "Harris " ++ fmtFixed1 ((1 : ℚ) * 100) ++ "%"
      else "Trump " ++ fmtFixed1 ((0 : ℚ) * 100) ++ "%" :=
  claim_C6_highest.2 [1] [0] 1 0 (by norm_num [asDecimal]) (by norm_num [asDecimal])
    (by norm_num [asDecimal]) (by norm_num [asDecimal])

theorem avgAt_latest (xs : List ℚ) (k : Nat) (hk : k ≤ xs.length) :
    avgAt (List.range k) xs = mean (xs.take k) := by
  unfold avgAt mean
  rw [map_getD_range k xs hk, List.length_range]
  congr 1
  rw [List.length_take, min_eq_left hk]

theorem avgAt_earliest (xs : List ℚ) (k : Nat) (hk : k ≤ xs.length) :
    avgAt ((List.range k).map (fun i => xs.length - k + i)) xs =
      mean (xs.drop (xs.length - k)) := by
  unfold avgAt mean
  rw [List.map_map]
  have hcomp : (fun i => xs.getD i 0) ∘ (fun i => xs.length - k + i) =
      fun i => xs.getD (xs.length - k + i) 0 := rfl
  rw [hcomp, map_getD_range_last k xs hk, List.length_map, List.length_range]
  congr 1
  rw [List.length_drop, Nat.sub_sub_self hk]

theorem avgAt_earliest_of_len (xs : List ℚ) (k n : Nat) (hxn : xs.length = n)
    (hk : k ≤ n) :
    avgAt ((List.range k).map (fun i => n - k + i)) xs = mean (xs.drop (n - k)) := by
  subst hxn
  exact avgAt_earliest xs k hk

/-- C9: under the file-order variant, on a table with at least two rows the
historical-change query returns, for each candidate, the mean normalised
result over the first `k` rows (the "latest") minus the mean normalised
result over the last `k` rows (the "earliest"), `k` the window size. -/
theorem claim_C9_history (h t : List ℚ) (hn : 2 ≤ h.length)
    (hlen : t.length = h.length) :
    pollingHistoryChange h t =
      (mean ((h.map asDecimal).take (windowSize h.length)) -
         mean ((h.map asDecimal).drop (h.length - windowSize h.length)),
       mean ((t.map asDecimal).take (windowSize h.length)) -
         mean ((t.map asDecimal).drop (h.length - windowSize h.length))) := by
  have hkn : windowSize h.length ≤ h.length := by
    unfold windowSize
    split
    · omega
    · rw [Nat.zero_max]; omega
  have hk1 : 1 ≤ windowSize h.length := by
    unfold windowSize
    split
    · omega
    · rw [Nat.zero_max]; omega
  have hml : (h.map asDecimal).length = h.length := List.length_map _ _
  have hmt : (t.map asDecimal).length = h.length := by rw [List.length_map, hlen]
  simp only [pollingHistoryChange]
  rw [if_neg (by omega : ¬ h.length = 0), if_neg (by omega : ¬ windowSize h.length = 0)]
  rw [avgAt_latest (h.map asDecimal) (windowSize h.length) (by rw [hml]; exact hkn),
    avgAt_latest (t.map asDecimal) (windowSize h.length) (by rw [hmt]; exact hkn),
    avgAt_earliest_of_len (h.map asDecimal) (windowSize h.length) h.length hml hkn,
    avgAt_earliest_of_len (t.map asDecimal) (windowSize h.length) h.length hmt hkn]

theorem claim_C9_witness :
    pollingHistoryChange [(1 : ℚ), 0] [(0 : ℚ), 0] =
      (mean (([(1 : ℚ), 0].map asDecimal).take (windowSize [(1 : ℚ), 0].length)) -
         mean (([(1 : ℚ), 0].map asDecimal).drop
           ([(1 : ℚ), 0].length - windowSize [(1 : ℚ), 0].length)),
       mean (([(0 : ℚ), 0].map asDecimal).take (windowSize [(1 : ℚ), 0].length)) -
         mean (([(0 : ℚ), 0].map asDecimal).drop
           ([(1 : ℚ), 0].length - windowSize [(1 : ℚ), 0].length))) :=
  claim_C9_history [1, 0] [0, 0] (by simp) (by simp)

theorem mem_dropWhile_of_mem {c : Char} {p : Char → Bool} :
    ∀ {l : List Char}, c ∈ l → p c = false → c ∈ l.dropWhile p := by
  intro l
  induction l with
  | nil => intro hc _; cases hc
  | cons a l ih =>
    intro hc hp
    by_cases hpa : p a = true
    · rw [List.dropWhile_cons, if_pos hpa]
      rcases List.mem_cons.mp hc with rfl | hc2
      · rw [hp] at hpa; cases hpa
      · exact ih hc2 hp
    · rw [List.dropWhile_cons, if_neg hpa]
      exact hc

theorem mem_pyStrip {c : Char} {s : String} (hc : c ∈ s.data)
    (hp : pyIsSpace c = false) : c ∈ (pyStrip s).data := by
  show c ∈ ((s.data.dropWhile pyIsSpace).reverse.dropWhile pyIsSpace).reverse
  rw [List.mem_reverse]
  apply mem_dropWhile_of_mem _ hp
  rw [List.mem_reverse]
  exact mem_dropWhile_of_mem hc hp

theorem pyStrip_subset (s : String) : ∀ c ∈ (pyStrip s).data, c ∈ s.data := by
  intro c hc
  rw [show (pyStrip s).data =
    ((s.data.dropWhile pyIsSpace).reverse.dropWhile pyIsSpace).reverse from rfl,
    List.mem_reverse] at hc
  have hc2 := (List.dropWhile_sublist _).subset hc
  rw [List.mem_reverse] at hc2
  exact (List.dropWhile_sublist _).subset hc2

theorem pyIsSpace_eq_false_of_isDigit {c : Char} (h : c.isDigit = true) :
    pyIsSpace c = false := by
  cases hsp : pyIsSpace c
  · rfl
  · exfalso
    simp only [pyIsSpace, Bool.or_eq_true, beq_iff_eq] at hsp
    rcases hsp with ((((h1 | h1) | h1) | h1) | h1) | h1 <;>
      (subst h1; exact absurd h (by decide))

/-- C10: a five-field row whose combined sample cell contains a digit but
no letters parses with the empty string as type code, and a row whose type
code is the empty string never matches the likely-voter filter and never
contributes to the likely-voter average. -/
theorem claim_C10_no_letters (cell : String)
    (hd : ∃ c ∈ cell.data, c.isDigit = true)
    (ha : ∀ c ∈ cell.data, c.isAlpha = false) :
    (∃ nv, parseSampleField cell = .ok (nv, "")) ∧
    (∀ (st : List String) (h t : List ℚ) (v w : ℚ),
      likelyVoterPollingAverage ("" :: st) (v :: h) (w :: t) =
        likelyVoterPollingAverage st h t) := by
  constructor
  · obtain ⟨c, hc, hcd⟩ := hd
    have hmem : c ∈ (pyStrip cell).data :=
      mem_pyStrip hc (pyIsSpace_eq_false_of_isDigit hcd)
    have hne : ((pyStrip cell).data.filter Char.isDigit).isEmpty = false := by
      cases hfe : ((pyStrip cell).data.filter Char.isDigit).isEmpty
      · rfl
      · exfalso
        have hnil : (pyStrip cell).data.filter Char.isDigit = [] := by
          simpa [List.isEmpty_iff] using hfe
        have hcf : c ∈ (pyStrip cell).data.filter Char.isDigit :=
          List.mem_filter.mpr ⟨hmem, hcd⟩
        rw [hnil] at hcf
        cases hcf
    have hal : (pyStrip cell).data.filter Char.isAlpha = [] := by
      rw [List.filter_eq_nil_iff]
      intro x hx
      simp [ha x (pyStrip_subset cell x hx)]
    refine ⟨(digitsVal ((pyStrip cell).data.filter Char.isDigit) : Int), ?_⟩
    simp only [parseSampleField, hne, hal, Bool.false_eq_true, if_false, List.map_nil]
  · intro st h t v w
    have hzip : zip3 ("" :: st) (v :: h) (w :: t) = ("", v, w) :: zip3 st h t := rfl
    unfold likelyVoterPollingAverage
    rw [hzip]
    have hhead : (pyUpper (pyStrip "") == "LV") = false := rfl
    simp only [lvLists, hhead, Bool.false_eq_true, if_false]

theorem claim_C10_witness :
    (∃ nv, parseSampleField "1,880" = .ok (nv, "")) ∧
    (∀ (st : List String) (h t : List ℚ) (v w : ℚ),
      likelyVoterPollingAverage ("" :: st) (v :: h) (w :: t) =
        likelyVoterPollingAverage st h t) :=
  claim_C10_no_letters "1,880" (by decide) (by decide)

/-- C1 (counterexample): on the line `"Aug,xx,1880 LV,0.5,0.6"` the
`int(date_str)` conversion fails *after* the month append of line 96, so
`build_data_dict` raises with the month column one element longer than the
other five — a partially-appended row. -/
theorem claim_C1_cex :
    buildDataDict ["Aug,xx,1880 LV,0.5,0.6"] =
      .error (.intConv "xx", DataDict.mk ["Aug"] [] [] [] [] []) ∧
    (DataDict.mk ["Aug"] [] [] [] [] []).month ≠ [] ∧
    (DataDict.mk ["Aug"] [] [] [] [] []).date = [] :=
  ⟨rfl, by decide, rfl⟩

/-- C1 (amended): a line that fails the field-count check or the combined
sample-cell check is rejected before any append (nothing of the row is
stored); a successfully processed line is either skipped or appended in
full to all six sequences; but a line failing a numeric conversion leaves
a partially-appended row: month only for a failed date conversion (the
sample-size conversion of the six-field branch fails before any append),
and the first four or five fields for a failed Harris or Trump
conversion. -/
theorem claim_C1_atomicity (d : DataDict) (idx : Nat) (line : String) :
    (∀ d2, processLine d idx line = .ok d2 →
        d2 = d ∨ ∃ m dv sn st hv tv, d2 = appendFull d m dv sn st hv tv) ∧
    (∀ e d2, processLine d idx line = .error (e, d2) →
        ((∃ i p, e = .fieldCount i p) → d2 = d) ∧
        ((∃ c, e = .sampleField c) → d2 = d) ∧
        ((∃ s, e = .intConv s) → d2 = d ∨ ∃ m, d2 = appendM d m) ∧
        ((∃ s, e = .floatConv s) →
            (∃ m dv sn st, d2 = append4 d m dv sn st) ∨
            (∃ m dv sn st hv, d2 = append5 d m dv sn st hv))) := by
  constructor
  · intro d2 h
    exact processLine_ok_cases h
  · intro e d2 h
    obtain ⟨hsk, hp⟩ := processLine_error_cases h
    have hpe := parseParts_error hp
    exact ⟨fun hfc => (hpe.1 hfc).2.1, hpe.2.1, hpe.2.2.1, hpe.2.2.2⟩

theorem claim_C1_witness :
    DataDict.mk ["Aug"] [] [] [] [] [] = emptyDict ∨
      ∃ m, DataDict.mk ["Aug"] [] [] [] [] [] = appendM emptyDict m :=
  ((claim_C1_atomicity emptyDict 1 "Aug,xx,1880 LV,0.5,0.6").2 (.intConv "xx")
    (DataDict.mk ["Aug"] [] [] [] [] []) rfl).2.2.1 ⟨"xx", rfl⟩

/-- C3 (counterexample): the first line fails its `int("xx")` conversion, so
`build_data_dict` raises that `ValueError` (which names no line number)
even though the second line, `"a,b,c"`, has field count 3 — the claimed
"if and only if" fails in the "if" direction. -/
theorem claim_C3_cex :
    ¬ (isFieldCountRes (buildDataDict ["Aug,xx,1880 LV,0.5,0.6", "a,b,c"]) = true ↔
       hasBadLine 0 ["Aug,xx,1880 LV,0.5,0.6", "a,b,c"] = true) := by
  decide

/-- Every processed line either succeeds (starting from the empty dict) or
has a field count that is neither 5 nor 6. -/
def linesOkOrBad (idx : Nat) : List String → Bool
  | [] => true
  | l :: ls => (exOk (processLine emptyDict idx l) || badCount l) && linesOkOrBad (idx + 1) ls

theorem linesOkOrBad_spec :
    ∀ (ls : List String) (idx : Nat), linesOkOrBad idx ls = true →
      ∀ j l, ls[j]? = some l →
        exOk (processLine emptyDict (idx + j) l) = true ∨ badCount l = true := by
  intro ls
  induction ls with
  | nil => intro idx _ j l hg; simp at hg
  | cons a ls ih =>
    intro idx H j l hg
    rw [linesOkOrBad, Bool.and_eq_true] at H
    cases j with
    | zero =>
      obtain rfl : a = l := by simpa using hg
      have h1 := H.1
      rw [Bool.or_eq_true] at h1
      simpa using h1
    | succ j2 =>
      have := ih (idx + 1) H.2 j2 l (by simpa using hg)
      rwa [show idx + 1 + j2 = idx + (j2 + 1) by omega] at this

/-- C3 (amended): provided every non-blank, non-header line either parses
fully or has a field count outside `{5, 6}` (no other failure kind occurs
earlier), `build_data_dict` fails with the field-count `ParseError` naming
the 1-based line number and the offending split fields **iff** some
non-blank, non-header line has field count neither 5 nor 6.  Without that
proviso only the "only if" direction holds (see the counterexample). -/
theorem claim_C3_field_count (raw : List String)
    (H : linesOkOrBad 0 raw = true) :
    (∃ j l d2, raw[j]? = some l ∧
        buildDataDict raw = .error (.fieldCount (j + 1) (lineParts l), d2)) ↔
    (∃ j l, raw[j]? = some l ∧ skippedLine j l = false ∧ badCount l = true) := by
  constructor
  · rintro ⟨j, l, d2, hget, hb⟩
    obtain ⟨j0, l0, hg0, _, _, hsk0, hb0⟩ :=
      buildFrom_fieldCount_inv raw 0 emptyDict _ _ _ hb
    exact ⟨j0, l0, hg0, by simpa using hsk0, hb0⟩
  · rintro ⟨j, l, hget, hsk, hb⟩
    have H2 := linesOkOrBad_spec raw 0 H
    have H3 : ∀ j l, raw[j]? = some l →
        exOk (processLine emptyDict (0 + j) l) = true ∨ badCount l = true := by
      intro j l hg
      simpa using H2 j l hg
    obtain ⟨j2, l2, d2, hg2, hrun⟩ :=
      buildFrom_fieldCount_exists raw 0 emptyDict H3
        ⟨j, l, hget, by simpa using hsk, hb⟩
    refine ⟨j2, l2, d2, hg2, ?_⟩
    simpa [buildDataDict] using hrun

theorem claim_C3_witness :
    (∃ j l d2, (["Aug,5,1880 LV,0.5,0.6", "a,b,c"] : List String)[j]? = some l ∧
        buildDataDict ["Aug,5,1880 LV,0.5,0.6", "a,b,c"] =
          .error (.fieldCount (j + 1) (lineParts l), d2)) ↔
    (∃ j l, (["Aug,5,1880 LV,0.5,0.6", "a,b,c"] : List String)[j]? = some l ∧
        skippedLine j l = false ∧ badCount l = true) :=
  claim_C3_field_count ["Aug,5,1880 LV,0.5,0.6", "a,b,c"] (by decide)

/-- C4 (counterexample): on the cell `"12b345"` the code concatenates *all*
digit characters and returns sample size 12345, whereas the claimed
"maximal digit run" of the cell is `345` — the claim as stated fails. -/
theorem claim_C4_cex :
    parseSampleField "12b345" = .ok (12345, "B") ∧
    digitsVal (specMaxDigitRun "12b345") = 345 ∧ (12345 : Int) ≠ (345 : Int) :=
  ⟨rfl, by decide, by decide⟩

theorem digitsVal_eq_ofDigits (ds : List Char) :
    digitsVal ds = Nat.ofDigits 10 (ds.reverse.map (fun c => c.toNat - 48)) := by
  suffices hgen : ∀ (l : List Char) (a : Nat),
      l.foldl (fun a c => a * 10 + (c.toNat - 48)) a =
        a * 10 ^ l.length + Nat.ofDigits 10 (l.reverse.map (fun c => c.toNat - 48)) by
    simpa [digitsVal] using hgen ds 0
  intro l
  induction l with
  | nil => intro a; simp [Nat.ofDigits]
  | cons c l ih =>
    intro a
    rw [List.foldl_cons, ih (a * 10 + (c.toNat - 48)), List.reverse_cons,
      List.map_append, Nat.ofDigits_append]
    simp only [List.map_cons, List.map_nil, Nat.ofDigits_singleton,
      List.length_map, List.length_reverse, List.length_cons]
    ring

/-- C4 (amended): for a five-field row, `_parse_sample_field` fails with the
sample-field `ParseError` iff the cell contains no digit at all; otherwise
the sample size is the integer formed by concatenating **every** digit
character of the cell in order (which coincides with the claimed maximal
digit run only when the cell's digits are contiguous once separators are
removed), and the type code is the concatenation of every letter,
uppercased. -/
theorem claim_C4_sample_field (cell : String) :
    (parseSampleField cell = .error (.sampleField cell) ↔
      (pyStrip cell).data.filter Char.isDigit = []) ∧
    ((pyStrip cell).data.filter Char.isDigit ≠ [] →
      parseSampleField cell =
        .ok (((Nat.ofDigits 10
            ((((pyStrip cell).data.filter Char.isDigit).reverse).map
              (fun c => c.toNat - 48)) : Nat) : Int),
          ⟨((pyStrip cell).data.filter Char.isAlpha).map Char.toUpper⟩)) := by
  by_cases hnil : (pyStrip cell).data.filter Char.isDigit = []
  · have hemp : ((pyStrip cell).data.filter Char.isDigit).isEmpty = true := by
      simp [List.isEmpty_iff, hnil]
    refine ⟨iff_of_true (by simp [parseSampleField, hemp]) hnil, fun hne => absurd hnil hne⟩
  · have hemp : ((pyStrip cell).data.filter Char.isDigit).isEmpty = false := by
      simp [List.isEmpty_iff, hnil]
    constructor
    · refine iff_of_false ?_ hnil
      simp [parseSampleField, hemp]
    · intro _
      simp only [parseSampleField, hemp, Bool.false_eq_true, if_false,
        Except.ok.injEq, Prod.mk.injEq]
      exact ⟨by rw [digitsVal_eq_ofDigits], trivial⟩

theorem claim_C4_witness :
    parseSampleField "1880 LV" =
      .ok (((Nat.ofDigits 10
          ((((pyStrip "1880 LV").data.filter Char.isDigit).reverse).map
            (fun c => c.toNat - 48)) : Nat) : Int),
        ⟨((pyStrip "1880 LV").data.filter Char.isAlpha).map Char.toUpper⟩) :=
  (claim_C4_sample_field "1880 LV").2 (by decide)

end PollReader
